import Mathlib

/-!
Verification development for the ceRNA interaction pipeline.

The repository consists of three Python scripts built on pandas:
  * obtain_interaction_data.py — download, load, confidence-filter,
    harmonize and merge interaction tables;
  * preprocessing.py — restrict a single-cell expression matrix to the
    genes of the merged network and drop zero-expression genes;
  * data_integration.py — quantile-based global confidence filter.

The development below gives a shallow embedding of the tabular data model
(a DataFrame is an ordered list of column names together with rows of
optional cells; a missing cell models pandas NaN) and of each operation of
the pipeline, translated from the source, and proves the specification
claims against those definitions.
-/

/-- A cell value of an interaction table: either a string (identifiers,
support types) or a rational number (confidence scores). -/
inductive Val where
  | str : String → Val
  | num : ℚ → Val
deriving DecidableEq

/-- A cell of a table; `none` models a pandas missing value (NaN). -/
abbrev Cell := Option Val

/-- A pandas DataFrame: an ordered list of column names and rows of cells
aligned positionally with the columns. -/
structure DataFrame where
  cols : List String
  rows : List (List Cell)
deriving DecidableEq

/-- Look up the cell of `row` under column `c`, walking `cols` and `row`
in lockstep; a column not present (or a row shorter than the columns)
yields a missing value. This is `row[c]` for the first column named `c`,
the pandas column-indexing discipline. -/
def getCell : List String → List Cell → String → Cell
  | c0 :: cs, v :: vs, c => if c0 = c then v else getCell cs vs c
  | _, _, _ => none

/-- Column normalization of `load_and_filter` (obtain_interaction_data.py
lines 93–97): if columns literally named `miRNA` and `target_gene` are
present rename them to `source`/`target`; otherwise rename the first two
columns positionally. The positional fallback renames by name, mirroring
`df.rename(columns={df.columns[0]: 'source', df.columns[1]: 'target'})`
(when the first two names coincide the later dict entry wins, hence the
second name is tested first). -/
def renameNormalize (df : DataFrame) : DataFrame :=
  if "miRNA" ∈ df.cols ∧ "target_gene" ∈ df.cols then
    { df with cols := df.cols.map (fun c =>
        if c = "miRNA" then "source"
        else if c = "target_gene" then "target" else c) }
  else
    { df with cols := df.cols.map (fun c =>
        if c = df.cols.getD 1 "" then "target"
        else if c = df.cols.getD 0 "" then "source" else c) }

/-- Pandas comparison `cell >= t` used by the confidence filters: true
exactly when the cell holds a number at least `t`; a missing value (NaN)
compares false, as does a non-numeric cell. -/
def cellGeNum (cell : Cell) (t : ℚ) : Bool :=
  match cell with
  | some (Val.num q) => decide (t ≤ q)
  | _ => false

/-- The per-source confidence filter of `load_and_filter`
(obtain_interaction_data.py lines 100–103):
`if score_col and threshold is not None and score_col in df.columns:
df = df[df[score_col] >= threshold]`. A `none` (or empty, Python-falsy)
score column or a `none` threshold skips filtering, as does a named
column absent from the table. -/
def scoreFilter (df : DataFrame) (score_col : Option String)
    (threshold : Option ℚ) : DataFrame :=
  match score_col, threshold with
  | some sc, some t =>
    if sc ≠ "" ∧ sc ∈ df.cols then
      { df with rows := df.rows.filter (fun r => cellGeNum (getCell df.cols r sc) t) }
    else df
  | _, _ => df

/-- `df.dropna(subset=['source', 'target'])` (line 106): keep the rows
whose `source` and `target` cells are both present. -/
def dropnaST (df : DataFrame) : DataFrame :=
  { df with rows := df.rows.filter (fun r =>
      (getCell df.cols r "source").isSome && (getCell df.cols r "target").isSome) }

/-- The (source, target) key of a row, the subset on which the pipeline
deduplicates. -/
def keyST (cols : List String) (row : List Cell) : Cell × Cell :=
  (getCell cols row "source", getCell cols row "target")

/-- Deduplication keeping the first occurrence of each key, with an
accumulator of keys already emitted: the semantics of
`drop_duplicates(keep='first')` on the image of `k`. -/
def dedupKeepFirstAux {α κ : Type} [DecidableEq κ] (k : α → κ) :
    List κ → List α → List α
  | _, [] => []
  | seen, r :: rs =>
    if k r ∈ seen then dedupKeepFirstAux k seen rs
    else r :: dedupKeepFirstAux k (k r :: seen) rs

/-- `drop_duplicates` keeping the first row for each key value. -/
def dedupKeepFirst {α κ : Type} [DecidableEq κ] (k : α → κ) (l : List α) : List α :=
  dedupKeepFirstAux k [] l

/-- `df.drop_duplicates(subset=['source', 'target'])` (line 107). -/
def dedupST (df : DataFrame) : DataFrame :=
  { df with rows := dedupKeepFirst (keyST df.cols) df.rows }

/-- The final column reorder of `load_and_filter` (line 109):
`df[['source', 'target'] + [c for c in df.columns if c not in
['source', 'target']]]`; rows are re-gathered under the new column order. -/
def reorderCols (df : DataFrame) : DataFrame :=
  let newCols := "source" :: "target" ::
    df.cols.filter (fun c => c ≠ "source" ∧ c ≠ "target")
  ⟨newCols, df.rows.map (fun r => newCols.map (fun c => getCell df.cols r c))⟩

/-- `load_and_filter` (obtain_interaction_data.py lines 66–109) applied to
the already-parsed table: normalize columns, filter by confidence score,
drop rows with missing source or target, deduplicate on (source, target)
keeping the first occurrence, and put `source`, `target` first. -/
def load_and_filter (df : DataFrame) (score_col : Option String)
    (threshold : Option ℚ) : DataFrame :=
  reorderCols (dedupST (dropnaST (scoreFilter (renameNormalize df) score_col threshold)))

/-- The identifier mapping table: rows (raw_id, official_symbol) of the
mapping file, in file order. -/
abbrev IdMap := List (String × String)

/-- Lookup in `dict(zip(mapping['raw_id'], mapping['official_symbol']))`:
with duplicate raw ids the later file row wins, hence the lookup walks the
reversed list. -/
def dictGet (m : IdMap) (s : String) : Option String :=
  m.reverse.lookup s

/-- One cell under `series.map(mapping_dict).fillna(series)`: a string
cell that is a key of the map is replaced by its official symbol, any
other cell (unmapped string, number, missing) is left unchanged. -/
def mapCell (m : IdMap) (cell : Cell) : Cell :=
  match cell with
  | some (Val.str s) =>
    match dictGet m s with
    | some sym => some (Val.str sym)
    | none => some (Val.str s)
  | other => other

/-- Cell transform of `harmonize_ids`: only the `source` and `target`
columns are rewritten. -/
def harmonizeCell (m : IdMap) (c : String) (cell : Cell) : Cell :=
  if c = "source" ∨ c = "target" then mapCell m cell else cell

/-- `harmonize_ids` (obtain_interaction_data.py lines 112–125): rewrite
the `source` and `target` columns through the identifier map, leaving
unmapped identifiers and all other columns unchanged; no row is added,
dropped or reordered. -/
def harmonize_ids (df : DataFrame) (m : IdMap) : DataFrame :=
  { df with rows := df.rows.map (fun r => List.zipWith (harmonizeCell m) df.cols r) }

/-- `df['source_db'] = name` (line 150): tag every row of a per-source
table with its database of origin, as a new last column. -/
def addSourceDb (df : DataFrame) (name : String) : DataFrame :=
  ⟨df.cols ++ ["source_db"], df.rows.map (fun r => r ++ [some (Val.str name)])⟩

/-- Column union of `pd.concat`: the columns of the first table, then the
new columns of each later table in order of first appearance. -/
def unionCols (dfs : List DataFrame) : List String :=
  dfs.foldl (fun acc df => df.cols.foldl (fun a c => if c ∈ a then a else a ++ [c]) acc) []

/-- Re-align one row to the unioned column list; a column the row's table
lacks becomes a missing value, as in `pd.concat`. -/
def alignRow (ucols : List String) (cols : List String) (r : List Cell) : List Cell :=
  ucols.map (fun c => getCell cols r c)

/-- `pd.concat(dfs, ignore_index=True)` (line 154): all rows of all
tables, in input order, re-aligned to the unioned columns. -/
def concatAll (dfs : List DataFrame) : DataFrame :=
  ⟨unionCols dfs, dfs.flatMap (fun df => df.rows.map (alignRow (unionCols dfs) df.cols))⟩

/-- The Merger (obtain_interaction_data.py lines 154–155): concatenate and
deduplicate on (source, target), keeping the first occurrence in input
order. -/
def mergeDfs (dfs : List DataFrame) : DataFrame :=
  ⟨(concatAll dfs).cols, dedupKeepFirst (keyST (concatAll dfs).cols) (concatAll dfs).rows⟩

/-- A data-source descriptor of the registry (obtain_interaction_data.py
lines 16–45). -/
structure SourceDescriptor where
  name : String
  url : String
  filename : String
  sep : String
  score_col : Option String
  threshold : Option ℚ
deriving DecidableEq

/-- The source registry `INTERACTION_SOURCES`, in declaration order (the
iteration order of a Python dict is its insertion order). -/
def INTERACTION_SOURCES : List SourceDescriptor :=
  [⟨"starBase",
    "https://starbase.sysu.edu.cn/download/starBase_ceRNA_interactions.tsv.gz",
    "starBase_ceRNA_interactions.tsv.gz", "\t", some "clip_score", some (1/2)⟩,
   ⟨"LncBase",
    "https://diana.e-ce.uth.gr/lncbasev2/download/LncBase_interactions.tsv.gz",
    "LncBase_interactions.tsv.gz", "\t", some "lncbase_confidence", some (7/10)⟩,
   ⟨"miRTarBase",
    "https://mirtarbase.cuhk.edu.cn/cache/download/2023_MTI.tsv.gz",
    "miRTarBase_interactions.tsv.gz", "\t", some "SupportType", none⟩,
   ⟨"miRcode",
    "http://www.mircode.org/download/mircode_v11.tsv",
    "miRcode_interactions.tsv", "\t", none, none⟩]

/-- Stage 2 of `main` for one source (lines 143–151): load and filter the
parsed raw table, harmonize identifiers, tag with the source name. -/
def perSourceTable (tables : String → DataFrame) (idm : IdMap)
    (s : SourceDescriptor) : DataFrame :=
  addSourceDb (harmonize_ids (load_and_filter (tables s.name) s.score_col s.threshold) idm) s.name

/-- Stages 2–3 of `main` (lines 140–155): the per-source tables are built
and merged iterating the registry in declaration order. -/
def mainMerged (tables : String → DataFrame) (idm : IdMap) : DataFrame :=
  mergeDfs (INTERACTION_SOURCES.map (perSourceTable tables idm))

/-- The destination path `os.path.join(DATA_DIR, info['filename'])` of a
source's raw file. -/
def destPath (d : SourceDescriptor) : String :=
  "data/raw/" ++ d.filename

/-- The Fetcher step of `main` (obtain_interaction_data.py lines 132–137)
for one source: given the remote contents and the local filesystem (a map
from path to file contents), download the file only when the destination
does not exist. Returns the new filesystem and the number of downloads
performed. -/
def ensure_local (remote : String → String) (d : SourceDescriptor)
    (fs : String → Option String) : (String → Option String) × Nat :=
  if (fs (destPath d)).isSome then (fs, 0)
  else (fun p => if p = destPath d then some (remote d.url) else fs p, 1)

/-- An scRNA-seq expression matrix: rows of (gene identifier, per-cell
expression values), genes × cells. -/
structure ExprMatrix where
  rows : List (String × List ℚ)
deriving DecidableEq

/-- `load_network_genes` (preprocessing.py lines 14–21): the set of all
genes of the network edge list, the union of the `source` and `target`
columns; membership in this list is the set membership used downstream. -/
def load_network_genes (edges : List (String × String)) : List String :=
  edges.map Prod.fst ++ edges.map Prod.snd

/-- `expr.index.intersection(network_genes)` with the default
`sort=False`: the unique row labels of the matrix, in matrix order,
restricted to the network genes. -/
def index_intersection (m : ExprMatrix) (genes : List String) : List String :=
  (dedupKeepFirst id (m.rows.map Prod.fst)).filter (fun g => decide (g ∈ genes))

/-- `expr.loc[labels]`: for each label in order, all rows of the matrix
carrying that label. -/
def locRows (m : ExprMatrix) (labels : List String) : List (String × List ℚ) :=
  labels.flatMap (fun g => m.rows.filter (fun r => decide (r.1 = g)))

/-- Step 1 of `filter_expression` (preprocessing.py line 47):
`expr.loc[expr.index.intersection(network_genes)]`. -/
def intersectStep (m : ExprMatrix) (genes : List String) : ExprMatrix :=
  ⟨locRows m (index_intersection m genes)⟩

/-- `filter_expression` (preprocessing.py lines 39–56): restrict to the
network genes, then keep the rows with `expr.sum(axis=1) > 0`. -/
def filter_expression (m : ExprMatrix) (genes : List String) : ExprMatrix :=
  ⟨(intersectStep m genes).rows.filter (fun r => decide (0 < r.2.sum))⟩

/-- Error kind of the Global Confidence Filter: the confidence column is
absent from the edge set. -/
inductive PipelineError where
  | missingColumn : PipelineError
deriving DecidableEq

/-- The cells of one column of a table, in row order. -/
def colValues (df : DataFrame) (c : String) : List Cell :=
  df.rows.map (fun r => getCell df.cols r c)

/-- The numeric values of a column; missing values are dropped, as pandas
`quantile` skips NaN. -/
def numericValues (cells : List Cell) : List ℚ :=
  cells.filterMap (fun cell =>
    match cell with
    | some (Val.num q) => some q
    | _ => none)

/-- Insertion into a sorted list of rationals. -/
def insertSorted (x : ℚ) : List ℚ → List ℚ
  | [] => [x]
  | y :: ys => if x ≤ y then x :: y :: ys else y :: insertSorted x ys

/-- Insertion sort of a list of rationals, as the sorting step of the
quantile computation. -/
def sortQ : List ℚ → List ℚ
  | [] => []
  | x :: xs => insertSorted x (sortQ xs)

/-- The linear-interpolation quantile of pandas
`Series.quantile(q)` (default `interpolation='linear'`): with the sorted
values x₀ ≤ … ≤ xₙ₋₁ and h = q·(n−1), the result is
x⌊h⌋ + (h − ⌊h⌋)·(x⌊h⌋₊₁ − x⌊h⌋); `none` on an empty list (pandas NaN). -/
def quantileLinear (xs : List ℚ) (q : ℚ) : Option ℚ :=
  match sortQ xs with
  | [] => none
  | y :: ys =>
    let s := y :: ys
    let n := s.length
    let h : ℚ := q * ((n : ℚ) - 1)
    let i : Nat := (Rat.floor h).toNat
    let g : ℚ := h - (i : ℚ)
    let xi := s.getD i 0
    let xj := s.getD (min (i + 1) (n - 1)) 0
    some (xi + g * (xj - xi))

/-- `global_threshold = merged_interactions['confidence_score'].quantile(0.10)`
(data_integration.py line 2): fails when the column is absent (pandas
raises a key error, the `MissingColumnError` of the specification);
otherwise the 0.10-quantile of the column, `none` when the column holds no
numeric value. -/
def global_threshold (df : DataFrame) : Except PipelineError (Option ℚ) :=
  if "confidence_score" ∈ df.cols then
    Except.ok (quantileLinear (numericValues (colValues df "confidence_score")) (1/10))
  else Except.error PipelineError.missingColumn

/-- `final_df = merged_interactions[merged_interactions['confidence_score']
>= global_threshold]` (data_integration.py line 3): on success, the rows
whose confidence is at least the cutoff (a NaN cutoff retains no row, as
NaN comparisons are false); on failure the error aborts and no table is
produced. -/
def final_df (df : DataFrame) : Except PipelineError DataFrame :=
  match global_threshold df with
  | Except.error e => Except.error e
  | Except.ok none => Except.ok ⟨df.cols, []⟩
  | Except.ok (some cut) =>
    Except.ok ⟨df.cols, df.rows.filter (fun r => cellGeNum (getCell df.cols r "confidence_score") cut)⟩

/-- No two rows of a table share a (source, target) pair. -/
abbrev distinctSTPairs (df : DataFrame) : Prop :=
  df.rows.Pairwise (fun r1 r2 => keyST df.cols r1 ≠ keyST df.cols r2)

/-- The cell of a table at row `i`, column position `j` (missing when out
of range). -/
def cellAt (df : DataFrame) (i j : Nat) : Cell :=
  (df.rows.getD i []).getD j none

/-! ### Helper lemmas about first-occurrence deduplication -/

/-- A row emitted by the deduplication never carries a key already seen. -/
theorem dedupAux_key_not_seen {α κ : Type} [DecidableEq κ] (k : α → κ) :
    ∀ (l : List α) (seen : List κ) (x : α),
      x ∈ dedupKeepFirstAux k seen l → k x ∉ seen := by
  intro l
  induction l with
  | nil => intro seen x hx; simp [dedupKeepFirstAux] at hx
  | cons r rs ih =>
    intro seen x hx
    by_cases h : k r ∈ seen
    · simp only [dedupKeepFirstAux, if_pos h] at hx
      exact ih seen x hx
    · simp only [dedupKeepFirstAux, if_neg h] at hx
      rcases List.mem_cons.mp hx with rfl | hx2
      · exact h
      · exact fun hmem => ih (k r :: seen) x hx2 (List.mem_cons_of_mem _ hmem)

/-- The keys of the deduplicated list are pairwise distinct. -/
theorem dedupAux_pairwise {α κ : Type} [DecidableEq κ] (k : α → κ) :
    ∀ (l : List α) (seen : List κ),
      (dedupKeepFirstAux k seen l).Pairwise (fun a b => k a ≠ k b) := by
  intro l
  induction l with
  | nil => intro seen; simp [dedupKeepFirstAux]
  | cons r rs ih =>
    intro seen
    by_cases h : k r ∈ seen
    · simpa only [dedupKeepFirstAux, if_pos h] using ih seen
    · simp only [dedupKeepFirstAux, if_neg h]
      refine List.Pairwise.cons ?_ (ih (k r :: seen))
      intro b hb hkb
      exact dedupAux_key_not_seen k rs (k r :: seen) b hb (hkb ▸ List.mem_cons_self (k r) seen)

/-- Deduplication keeps the rows in their input order: the result is a
sublist of the input. -/
theorem dedupAux_sublist {α κ : Type} [DecidableEq κ] (k : α → κ) :
    ∀ (l : List α) (seen : List κ), (dedupKeepFirstAux k seen l).Sublist l := by
  intro l
  induction l with
  | nil => intro seen; simp [dedupKeepFirstAux]
  | cons r rs ih =>
    intro seen
    by_cases h : k r ∈ seen
    · simp only [dedupKeepFirstAux, if_pos h]
      exact (ih seen).cons r
    · simp only [dedupKeepFirstAux, if_neg h]
      exact (ih (k r :: seen)).cons₂ r

/-- Deduplication keeps, for each key, exactly the first input row with
that key: searching for a not-yet-seen key gives the same first hit before
and after deduplication. -/
theorem dedupAux_find {α κ : Type} [DecidableEq κ] (k : α → κ) (c : κ) :
    ∀ (l : List α) (seen : List κ), c ∉ seen →
      (dedupKeepFirstAux k seen l).find? (fun r => decide (k r = c))
        = l.find? (fun r => decide (k r = c)) := by
  intro l
  induction l with
  | nil => intro seen _; rfl
  | cons r rs ih =>
    intro seen hc
    by_cases h : k r ∈ seen
    · have hne : ¬ (k r = c) := fun he => hc (he ▸ h)
      simp only [dedupKeepFirstAux, if_pos h]
      rw [List.find?_cons_of_neg _ (by simpa using hne)]
      exact ih seen hc
    · simp only [dedupKeepFirstAux, if_neg h]
      by_cases he : k r = c
      · rw [List.find?_cons_of_pos _ (by simpa using he),
          List.find?_cons_of_pos _ (by simpa using he)]
      · rw [List.find?_cons_of_neg _ (by simpa using he),
          List.find?_cons_of_neg _ (by simpa using he)]
        refine ih (k r :: seen) ?_
        intro hmem
        rcases List.mem_cons.mp hmem with h2 | h2
        · exact he h2.symm
        · exact hc h2

/-- On a list with pairwise-distinct keys none of which has been seen,
deduplication is the identity. -/
theorem dedupAux_eq_self {α κ : Type} [DecidableEq κ] (k : α → κ) :
    ∀ (l : List α) (seen : List κ), (l.map k).Nodup →
      (∀ x ∈ l, k x ∉ seen) → dedupKeepFirstAux k seen l = l := by
  intro l
  induction l with
  | nil => intro seen _ _; rfl
  | cons r rs ih =>
    intro seen hnd hs
    have h : k r ∉ seen := hs r (List.mem_cons_self r rs)
    rw [List.map_cons] at hnd
    have hnd2 := List.nodup_cons.mp hnd
    simp only [dedupKeepFirstAux, if_neg h]
    congr 1
    refine ih (k r :: seen) hnd2.2 ?_
    intro x hx hmem
    rcases List.mem_cons.mp hmem with h2 | h2
    · exact hnd2.1 (h2 ▸ List.mem_map_of_mem k hx)
    · exact hs x (List.mem_cons_of_mem _ hx) h2

/-! ### Helper lemmas about column lookup -/

/-- Looking up an absent column yields a missing value. -/
theorem getCell_not_mem :
    ∀ (cols : List String) (r : List Cell) (c : String),
      c ∉ cols → getCell cols r c = none := by
  intro cols
  induction cols with
  | nil => intro r c _; cases r <;> rfl
  | cons c0 cs ih =>
    intro r c h
    cases r with
    | nil => rfl
    | cons v vs =>
      have hne : c0 ≠ c := fun he => h (he ▸ List.mem_cons_self c0 cs)
      simp only [getCell, if_neg hne]
      exact ih vs c (fun hm => h (List.mem_cons_of_mem _ hm))

/-- Looking up a column of a row rebuilt by gathering cells under a column
list evaluates the gathering function, and yields a missing value for a
column outside the list. -/
theorem getCell_map_cols :
    ∀ (u : List String) (f : String → Cell) (c : String),
      getCell u (u.map f) c = if c ∈ u then f c else none := by
  intro u f c
  induction u with
  | nil => simp [getCell]
  | cons c0 cs ih =>
    simp only [List.map_cons, getCell]
    by_cases h : c0 = c
    · subst h; simp
    · rw [if_neg h, ih]
      have hne : ¬ (c = c0) := fun he => h he.symm
      by_cases h2 : c ∈ cs
      · rw [if_pos h2, if_pos (List.mem_cons_of_mem _ h2)]
      · rw [if_neg h2, if_neg (by simp [List.mem_cons, hne, h2])]

/-- Positional access through a mapped list, when the mapping sends the
default to the default. -/
theorem getD_map_eq {α β : Type} (f : α → β) (dA : α) (dB : β) (h : f dA = dB) :
    ∀ (l : List α) (i : Nat), (l.map f).getD i dB = f (l.getD i dA) := by
  intro l
  induction l with
  | nil => intro i; simp [h]
  | cons x xs ih =>
    intro i
    cases i with
    | zero => rfl
    | succ n => simpa using ih n

/-- Positional description of one harmonized row: within the column range,
the `source`/`target` cells go through the identifier map and every other
cell is untouched. -/
theorem harmonize_row_getD (m : IdMap) :
    ∀ (cols : List String) (r : List Cell) (j : Nat), j < cols.length →
      (List.zipWith (harmonizeCell m) cols r).getD j none
        = if cols.getD j "" = "source" ∨ cols.getD j "" = "target"
          then mapCell m (r.getD j none) else r.getD j none := by
  intro cols
  induction cols with
  | nil => intro r j h; simp at h
  | cons c0 cs ih =>
    intro r j h
    cases r with
    | nil =>
      have hmc : mapCell m (none : Cell) = none := rfl
      simp [List.zipWith_nil_right, List.getD_nil, hmc]
    | cons v vs =>
      cases j with
      | zero => simp [harmonizeCell]
      | succ n =>
        simp only [List.zipWith_cons_cons, List.getD_cons_succ]
        exact ih vs n (Nat.succ_lt_succ_iff.mp h)

/-! ### Helper lemmas about the column union of the Merger -/

/-- Membership in the inner column-accumulating fold. -/
theorem mem_foldl_ins (x : String) :
    ∀ (cs : List String) (acc : List String),
      (x ∈ cs.foldl (fun a c => if c ∈ a then a else a ++ [c]) acc) ↔ (x ∈ acc ∨ x ∈ cs) := by
  intro cs
  induction cs with
  | nil => intro acc; simp
  | cons c cs2 ih =>
    intro acc
    rw [List.foldl_cons, ih]
    by_cases h : c ∈ acc
    · rw [if_pos h]
      simp only [List.mem_cons]
      constructor
      · tauto
      · rintro (h1 | rfl | h1)
        · exact Or.inl h1
        · exact Or.inl h
        · exact Or.inr h1
    · rw [if_neg h]
      simp only [List.mem_append, List.mem_cons, List.not_mem_nil, or_false]
      tauto

/-- Membership in the unioned columns of a concatenation: exactly the
columns appearing in some input table. -/
theorem mem_foldl_union (c : String) :
    ∀ (dfs : List DataFrame) (acc : List String),
      (c ∈ dfs.foldl (fun acc df =>
          df.cols.foldl (fun a c2 => if c2 ∈ a then a else a ++ [c2]) acc) acc)
        ↔ (c ∈ acc ∨ ∃ df ∈ dfs, c ∈ df.cols) := by
  intro dfs
  induction dfs with
  | nil => intro acc; simp
  | cons df dfs2 ih =>
    intro acc
    rw [List.foldl_cons, ih, mem_foldl_ins]
    rw [List.exists_mem_cons_iff]
    tauto

/-! ### Helper lemmas about the expression-matrix gene intersection -/

/-- A label carried by no row gathers nothing. -/
theorem filter_key_nil (g : String) :
    ∀ (rows : List (String × List ℚ)), g ∉ rows.map Prod.fst →
      rows.filter (fun r => decide (r.1 = g)) = [] := by
  intro rows h
  rw [List.filter_eq_nil_iff]
  intro r hr
  simp only [decide_eq_true_eq]
  intro he
  exact h (he ▸ List.mem_map_of_mem Prod.fst hr)

/-- Gathering the rows of a uniquely-indexed matrix along its filtered
index is the same as filtering the rows in place: surviving rows keep the
original row order. -/
theorem locRows_filter (p : String → Bool) :
    ∀ (rows : List (String × List ℚ)), (rows.map Prod.fst).Nodup →
      ((rows.map Prod.fst).filter p).flatMap
          (fun g => rows.filter (fun r => decide (r.1 = g)))
        = rows.filter (fun r => p r.1) := by
  intro rows
  induction rows with
  | nil => intro _; simp
  | cons r rs ih =>
    intro hnd
    rw [List.map_cons] at hnd
    have hnd2 := List.nodup_cons.mp hnd
    have hbody : ∀ g ∈ (rs.map Prod.fst).filter p,
        ((r :: rs).filter (fun r2 => decide (r2.1 = g)))
          = rs.filter (fun r2 => decide (r2.1 = g)) := by
      intro g hg
      have hgrs : g ∈ rs.map Prod.fst := List.mem_of_mem_filter hg
      have hne : ¬ (r.1 = g) := fun he => hnd2.1 (he ▸ hgrs)
      rw [List.filter_cons_of_neg (by simpa using hne)]
    by_cases hp : p r.1
    · rw [List.map_cons, List.filter_cons_of_pos hp, List.flatMap_cons]
      rw [List.flatMap_congr hbody, ih hnd2.2]
      simp only [List.filter_cons]
      simp only [filter_key_nil r.1 rs hnd2.1]
      simp [hp]
    · rw [List.map_cons, List.filter_cons_of_neg (by simpa using hp)]
      rw [List.flatMap_congr hbody, ih hnd2.2]
      simp only [List.filter_cons]
      simp [hp]

/-! ### Claim theorems -/

/-- The ten-row edge set with confidence scores 1..10 of the quantile
boundary example. -/
def quantileExampleDf : DataFrame :=
  ⟨["source", "target", "confidence_score"],
   [[some (Val.str "g1"), some (Val.str "t"), some (Val.num 1)],
    [some (Val.str "g2"), some (Val.str "t"), some (Val.num 2)],
    [some (Val.str "g3"), some (Val.str "t"), some (Val.num 3)],
    [some (Val.str "g4"), some (Val.str "t"), some (Val.num 4)],
    [some (Val.str "g5"), some (Val.str "t"), some (Val.num 5)],
    [some (Val.str "g6"), some (Val.str "t"), some (Val.num 6)],
    [some (Val.str "g7"), some (Val.str "t"), some (Val.num 7)],
    [some (Val.str "g8"), some (Val.str "t"), some (Val.num 8)],
    [some (Val.str "g9"), some (Val.str "t"), some (Val.num 9)],
    [some (Val.str "g10"), some (Val.str "t"), some (Val.num 10)]]⟩

/-- The nine rows of the example retained by the 0.10-quantile cutoff. -/
def quantileExampleKept : List (List Cell) :=
  [[some (Val.str "g2"), some (Val.str "t"), some (Val.num 2)],
   [some (Val.str "g3"), some (Val.str "t"), some (Val.num 3)],
   [some (Val.str "g4"), some (Val.str "t"), some (Val.num 4)],
   [some (Val.str "g5"), some (Val.str "t"), some (Val.num 5)],
   [some (Val.str "g6"), some (Val.str "t"), some (Val.num 6)],
   [some (Val.str "g7"), some (Val.str "t"), some (Val.num 7)],
   [some (Val.str "g8"), some (Val.str "t"), some (Val.num 8)],
   [some (Val.str "g9"), some (Val.str "t"), some (Val.num 9)],
   [some (Val.str "g10"), some (Val.str "t"), some (Val.num 10)]]

/-- C4: the Global Confidence Filter computes the 0.10 quantile of the
confidence column by linear interpolation and retains exactly the rows
whose value is at least that cutoff; on the scores [1, …, 10] the cutoff
is 1.9, the nine rows with score ≥ 1.9 are retained and the row with
score 1 is dropped. -/
theorem quantile_filter_boundary :
    (∀ (df : DataFrame) (cut : ℚ), global_threshold df = Except.ok (some cut) →
      final_df df = Except.ok ⟨df.cols, df.rows.filter
        (fun r => cellGeNum (getCell df.cols r "confidence_score") cut)⟩) ∧
    global_threshold quantileExampleDf = Except.ok (some (19/10)) ∧
    final_df quantileExampleDf
      = Except.ok ⟨["source", "target", "confidence_score"], quantileExampleKept⟩ := by
  refine ⟨?_, by with_unfolding_all rfl, by with_unfolding_all rfl⟩
  intro df cut h
  simp [final_df, h]

/-- Witness for C4: the general retention clause evaluated at the example
table and its computed cutoff 1.9. -/
theorem quantile_filter_boundary_witness :
    final_df quantileExampleDf = Except.ok ⟨quantileExampleDf.cols,
      quantileExampleDf.rows.filter (fun r =>
        cellGeNum (getCell quantileExampleDf.cols r "confidence_score") (19/10))⟩ :=
  quantile_filter_boundary.1 quantileExampleDf (19/10) (by with_unfolding_all rfl)

/-- C8: the Global Confidence Filter fails with the missing-column error
exactly when the confidence column is absent from the edge set; on failure
no filtered table is produced, and whenever the column is present some
filtered table is produced. -/
theorem global_filter_missing_column (df : DataFrame) :
    (final_df df = Except.error PipelineError.missingColumn ↔ "confidence_score" ∉ df.cols) ∧
    (global_threshold df = Except.error PipelineError.missingColumn ↔ "confidence_score" ∉ df.cols) ∧
    ("confidence_score" ∈ df.cols → ∃ out, final_df df = Except.ok out) := by
  by_cases h : "confidence_score" ∈ df.cols
  · have hg : global_threshold df
        = Except.ok (quantileLinear (numericValues (colValues df "confidence_score")) (1/10)) := by
      simp only [global_threshold, if_pos h]
    have hex : ∃ out, final_df df = Except.ok out := by
      unfold final_df
      rw [hg]
      cases hq : quantileLinear (numericValues (colValues df "confidence_score")) (1/10) with
      | none => exact ⟨_, rfl⟩
      | some cut => exact ⟨_, rfl⟩
    rcases hex with ⟨out, hout⟩
    refine ⟨?_, ?_, fun _ => ⟨out, hout⟩⟩
    · rw [hout]; simp [h]
    · simp [global_threshold, h]
  · refine ⟨?_, ?_, fun hmem => absurd hmem h⟩
    · simp [final_df, global_threshold, h]
    · simp [global_threshold, h]

/-- Witness for C8: on a table without the confidence column the filter
fails with the missing-column error. -/
theorem global_filter_missing_column_witness :
    final_df ⟨["source", "target"], []⟩ = Except.error PipelineError.missingColumn :=
  (global_filter_missing_column ⟨["source", "target"], []⟩).1.mpr (by decide)

/-- C9: the Fetcher is idempotent: when the destination file exists no
download happens and the filesystem is unchanged; starting from an absent
destination, two successive calls with the same descriptor perform exactly
one download, the second call being a no-op. -/
theorem fetch_idempotent (remote : String → String) (d : SourceDescriptor)
    (fs : String → Option String) :
    ((fs (destPath d)).isSome → ensure_local remote d fs = (fs, 0)) ∧
    (fs (destPath d) = none →
      (ensure_local remote d fs).2
          + (ensure_local remote d (ensure_local remote d fs).1).2 = 1 ∧
      ensure_local remote d (ensure_local remote d fs).1
          = ((ensure_local remote d fs).1, 0) ∧
      (ensure_local remote d fs).1 (destPath d) = some (remote d.url)) := by
  constructor
  · intro h
    simp [ensure_local, h]
  · intro h
    have h1 : ensure_local remote d fs
        = (fun p => if p = destPath d then some (remote d.url) else fs p, 1) := by
      simp [ensure_local, h]
    rw [h1]
    simp [ensure_local]

/-- Witness for C9: from an empty filesystem, fetching the same descriptor
twice performs exactly one download. -/
theorem fetch_idempotent_witness :
    (ensure_local (fun _ => "bytes") ⟨"s", "u", "f.tsv", "\t", none, none⟩ (fun _ => none)).2
      + (ensure_local (fun _ => "bytes") ⟨"s", "u", "f.tsv", "\t", none, none⟩
          (ensure_local (fun _ => "bytes") ⟨"s", "u", "f.tsv", "\t", none, none⟩
            (fun _ => none)).1).2 = 1 :=
  ((fetch_idempotent (fun _ => "bytes") ⟨"s", "u", "f.tsv", "\t", none, none⟩
    (fun _ => none)).2 rfl).1

/-- C10: when a score column and a threshold are both supplied and the
column exists, every row whose score cell is missing is dropped by the
score filter, although a missing score is not strictly less than the
threshold. -/
theorem missing_score_row_dropped (df : DataFrame) (sc : String) (t : ℚ)
    (h1 : sc ≠ "") (h2 : sc ∈ df.cols) (r : List Cell)
    (h3 : getCell df.cols r sc = none) :
    r ∉ (scoreFilter df (some sc) (some t)).rows := by
  intro hmem
  simp only [scoreFilter, if_pos (And.intro h1 h2)] at hmem
  have hcell := (List.mem_filter.mp hmem).2
  rw [h3] at hcell
  simp [cellGeNum] at hcell

/-- Witness for C10: a concrete row with a missing score is not in the
score-filtered table. -/
theorem missing_score_row_dropped_witness :
    [some (Val.str "a"), some (Val.str "b"), (none : Cell)]
      ∉ (scoreFilter ⟨["source", "target", "s"],
          [[some (Val.str "a"), some (Val.str "b"), none]]⟩ (some "s") (some 0)).rows :=
  missing_score_row_dropped ⟨["source", "target", "s"],
      [[some (Val.str "a"), some (Val.str "b"), none]]⟩ "s" 0 (by decide) (by decide)
      [some (Val.str "a"), some (Val.str "b"), none] (by decide)

/-- C1 counterexample: the Identifier Harmonizer can output duplicate
(source, target) pairs. Mapping the distinct raw identifiers a and b to
the same official symbol x collapses the two distinct pairs (a, t) and
(b, t) of a deduplicated input into two identical rows (x, t). -/
theorem harmonizer_duplicate_pairs :
    distinctSTPairs ⟨["source", "target"],
      [[some (Val.str "a"), some (Val.str "t")],
       [some (Val.str "b"), some (Val.str "t")]]⟩ ∧
    ¬ distinctSTPairs (harmonize_ids ⟨["source", "target"],
      [[some (Val.str "a"), some (Val.str "t")],
       [some (Val.str "b"), some (Val.str "t")]]⟩ [("a", "x"), ("b", "x")]) :=
  ⟨by decide, by decide⟩

/-- C2 counterexample: a surviving row whose values sum to −1 (a nonzero
sum) is nonetheless dropped by `filter_expression`, which keeps only rows
with strictly positive sum. -/
theorem negative_sum_row_dropped :
    (intersectStep ⟨[("A", [(-1 : ℚ)])]⟩ ["A"]).rows = [("A", [(-1 : ℚ)])] ∧
    List.sum [(-1 : ℚ)] ≠ 0 ∧
    (filter_expression ⟨[("A", [(-1 : ℚ)])]⟩ ["A"]).rows = [] :=
  ⟨by with_unfolding_all rfl, by norm_num, by with_unfolding_all rfl⟩

/-- C3 counterexample: with a score column and threshold supplied and the
column present, a row whose score cell is missing — hence not strictly
less than the threshold — is dropped by `load_and_filter` instead of
being retained. -/
theorem missing_score_retained_counterexample :
    getCell ["source", "target", "clip_score"]
      [some (Val.str "g1"), some (Val.str "g2"), none] "clip_score" = none ∧
    (load_and_filter ⟨["source", "target", "clip_score"],
        [[some (Val.str "g1"), some (Val.str "g2"), none]]⟩
      (some "clip_score") (some (1/2))).rows = [] :=
  ⟨by decide, by with_unfolding_all rfl⟩

/-- The (source, target) key of a row is unchanged by the final column
reorder of `load_and_filter`. -/
theorem keyST_reorder (cols : List String) (r : List Cell) :
    keyST ("source" :: "target" :: cols.filter (fun c => c ≠ "source" ∧ c ≠ "target"))
      (("source" :: "target" :: cols.filter (fun c => c ≠ "source" ∧ c ≠ "target")).map
        (fun c => getCell cols r c))
      = keyST cols r := by
  simp [keyST, getCell]

/-- After the final reorder following the (source, target) deduplication,
no two rows share a (source, target) pair. -/
theorem reorder_dedup_distinct (d : DataFrame) :
    distinctSTPairs (reorderCols (dedupST d)) := by
  show ((dedupKeepFirstAux (keyST d.cols) [] d.rows).map
      (fun r => ("source" :: "target" ::
          d.cols.filter (fun c => c ≠ "source" ∧ c ≠ "target")).map
        (fun c => getCell d.cols r c))).Pairwise
    (fun r1 r2 =>
      keyST ("source" :: "target" ::
          d.cols.filter (fun c => c ≠ "source" ∧ c ≠ "target")) r1
        ≠ keyST ("source" :: "target" ::
          d.cols.filter (fun c => c ≠ "source" ∧ c ≠ "target")) r2)
  rw [List.pairwise_map]
  refine (dedupAux_pairwise _ _ []).imp ?_
  intro a b hab hcon
  apply hab
  rw [← keyST_reorder d.cols a, ← keyST_reorder d.cols b]
  exact hcon

/-- C1 (amended): the RecordSets output by the Loader/Filter and by the
Merger contain no two rows with the same (source, target) pair. (The
Identifier Harmonizer between them performs no deduplication and can
output duplicate pairs; see the counterexample.) -/
theorem loader_merger_dedup_invariant (df : DataFrame) (sc : Option String)
    (t : Option ℚ) (dfs : List DataFrame) :
    distinctSTPairs (load_and_filter df sc t) ∧ distinctSTPairs (mergeDfs dfs) := by
  constructor
  · exact reorder_dedup_distinct (dropnaST (scoreFilter (renameNormalize df) sc t))
  · show ((mergeDfs dfs).rows).Pairwise _
    exact dedupAux_pairwise _ _ []

/-- Nonnegative-sum characterization used by the amended zero-expression
claim. -/
theorem sum_pos_iff_ne_zero {s : ℚ} (h0 : 0 ≤ s) : (0 < s) ↔ (s ≠ 0) := by
  constructor
  · exact fun hlt => ne_of_gt hlt
  · intro hne
    exact lt_of_le_of_ne h0 (Ne.symm hne)

/-- C2 (amended): among the rows surviving the network-gene intersection,
`filter_expression` keeps exactly the rows with strictly positive value
sum; under the assumption that all expression values are nonnegative (the
normalized-expression case) this says a row is dropped if and only if its
values sum to exactly zero — every all-zero row is removed even when its
gene is in the network, and every row with a nonzero sum is kept. -/
theorem zero_expression_removal (m : ExprMatrix) (genes : List String)
    (h : ∀ r ∈ (intersectStep m genes).rows, ∀ v ∈ r.2, 0 ≤ v) :
    (filter_expression m genes).rows
      = (intersectStep m genes).rows.filter (fun r => decide (r.2.sum ≠ 0)) := by
  show ((intersectStep m genes).rows.filter (fun r => decide (0 < r.2.sum)))
      = (intersectStep m genes).rows.filter (fun r => decide (r.2.sum ≠ 0))
  refine List.filter_congr ?_
  intro r hr
  exact decide_eq_decide.mpr (sum_pos_iff_ne_zero (List.sum_nonneg (h r hr)))

/-- Witness for C2: a nonnegative matrix with an all-zero row for gene A
and a nonzero row for gene B keeps exactly the B row. -/
theorem zero_expression_removal_witness :
    (filter_expression ⟨[("A", [(0 : ℚ)]), ("B", [2])]⟩ ["A", "B"]).rows
      = [("B", [(2 : ℚ)])] :=
  (zero_expression_removal ⟨[("A", [(0 : ℚ)]), ("B", [2])]⟩ ["A", "B"]
    (by decide)).trans (by with_unfolding_all rfl)

/-- C3 (amended): when a score column name and a numeric threshold are
supplied and the named column exists, the score filter retains exactly the
rows whose score is present and at least the threshold — rows whose score
is strictly less than the threshold or missing are dropped; when the
threshold is `None`, or the named column is absent, no score filtering
occurs and it is not an error. -/
theorem score_filter_semantics (df : DataFrame) (sc : String) (t : ℚ) :
    (∀ sc0, scoreFilter df sc0 none = df) ∧
    (∀ t0, scoreFilter df none t0 = df) ∧
    (sc ∉ df.cols → scoreFilter df (some sc) (some t) = df) ∧
    (sc ≠ "" → sc ∈ df.cols →
      ∀ r, r ∈ (scoreFilter df (some sc) (some t)).rows
        ↔ (r ∈ df.rows ∧ ∃ q, getCell df.cols r sc = some (Val.num q) ∧ t ≤ q)) := by
  refine ⟨?_, ?_, ?_, ?_⟩
  · intro sc0; cases sc0 <;> rfl
  · intro t0; rfl
  · intro h
    simp [scoreFilter, h]
  · intro h1 h2 r
    simp only [scoreFilter, if_pos (And.intro h1 h2)]
    rw [List.mem_filter]
    constructor
    · rintro ⟨hmem, hc⟩
      refine ⟨hmem, ?_⟩
      cases hcell : getCell df.cols r sc with
      | none => rw [hcell] at hc; simp [cellGeNum] at hc
      | some v =>
        cases v with
        | str s => rw [hcell] at hc; simp [cellGeNum] at hc
        | num q =>
          rw [hcell] at hc
          simp only [cellGeNum, decide_eq_true_eq] at hc
          exact ⟨q, rfl, hc⟩
    · rintro ⟨hmem, q, hcell, hq⟩
      exact ⟨hmem, by simp [cellGeNum, hcell, hq]⟩

/-- Witness for C3: a present score equal to or above the threshold is
retained by the score filter. -/
theorem score_filter_semantics_witness :
    [some (Val.num 1)] ∈ (scoreFilter ⟨["score"], [[some (Val.num 1)]]⟩
      (some "score") (some 0)).rows :=
  ((score_filter_semantics ⟨["score"], [[some (Val.num 1)]]⟩ "score" 0).2.2.2
      (by decide) (by decide) [some (Val.num 1)]).mpr
    ⟨by decide, 1, by decide, by decide⟩

/-- C5: the Merger concatenates the per-source tables preserving all
columns (a column missing from an input reads as null for its rows), then
deduplicates on the (source, target) pair keeping the first occurrence in
input order; and `main` merges the per-source tables in the declaration
order of the registry. Determinism is immediate: `mergeDfs` is a function
of the ordered list of inputs. -/
theorem merge_concat_dedup_first (dfs : List DataFrame) :
    (∀ c, c ∈ (mergeDfs dfs).cols ↔ ∃ df ∈ dfs, c ∈ df.cols) ∧
    (∀ df ∈ dfs, ∀ (r : List Cell), ∀ c, c ∉ df.cols →
      getCell (unionCols dfs) (alignRow (unionCols dfs) df.cols r) c = none) ∧
    (mergeDfs dfs).rows.Sublist (concatAll dfs).rows ∧
    (∀ key, (mergeDfs dfs).rows.find? (fun r => decide (keyST (concatAll dfs).cols r = key))
      = (concatAll dfs).rows.find? (fun r => decide (keyST (concatAll dfs).cols r = key))) ∧
    (∀ tables idm, mainMerged tables idm
      = mergeDfs (INTERACTION_SOURCES.map (perSourceTable tables idm))) := by
  refine ⟨?_, ?_, ?_, ?_, fun _ _ => rfl⟩
  · intro c
    simpa [mergeDfs, concatAll, unionCols] using mem_foldl_union c dfs []
  · intro df _ r c hc
    show getCell (unionCols dfs) ((unionCols dfs).map (fun c2 => getCell df.cols r c2)) c = none
    rw [getCell_map_cols]
    by_cases hu : c ∈ unionCols dfs
    · rw [if_pos hu]
      exact getCell_not_mem df.cols r c hc
    · rw [if_neg hu]
  · exact dedupAux_sublist _ _ []
  · intro key
    exact dedupAux_find _ key _ [] (by simp)

/-- Witness for C5: in a concrete two-table merge, a row of the first
table reads null under the column only the second table has. -/
theorem merge_concat_dedup_first_witness :
    getCell (unionCols [⟨["source", "target"], [[some (Val.str "a"), some (Val.str "b")]]⟩,
        ⟨["source", "target", "x"], []⟩])
      (alignRow (unionCols [⟨["source", "target"], [[some (Val.str "a"), some (Val.str "b")]]⟩,
          ⟨["source", "target", "x"], []⟩])
        ["source", "target"] [some (Val.str "a"), some (Val.str "b")]) "x" = none :=
  (merge_concat_dedup_first [⟨["source", "target"], [[some (Val.str "a"), some (Val.str "b")]]⟩,
      ⟨["source", "target", "x"], []⟩]).2.1
    ⟨["source", "target"], [[some (Val.str "a"), some (Val.str "b")]]⟩ (by decide)
    [some (Val.str "a"), some (Val.str "b")] "x" (by decide)

/-- C6: `harmonize_ids` never fails and never drops, adds or reorders a
row; positionally, within the column range, the `source` and `target`
cells are replaced by their mapped official symbol exactly when the
identifier is a key of the map and are left unchanged otherwise, and every
other column's cells are untouched. -/
theorem harmonize_passthrough (df : DataFrame) (m : IdMap) :
    (harmonize_ids df m).cols = df.cols ∧
    (harmonize_ids df m).rows.length = df.rows.length ∧
    (∀ i j, j < df.cols.length →
      cellAt (harmonize_ids df m) i j
        = if df.cols.getD j "" = "source" ∨ df.cols.getD j "" = "target"
          then mapCell m (cellAt df i j) else cellAt df i j) ∧
    (∀ s, dictGet m s = none → mapCell m (some (Val.str s)) = some (Val.str s)) ∧
    (∀ s sym, dictGet m s = some sym → mapCell m (some (Val.str s)) = some (Val.str sym)) := by
  refine ⟨rfl, by simp [harmonize_ids], ?_, ?_, ?_⟩
  · intro i j hj
    show ((df.rows.map (fun r => List.zipWith (harmonizeCell m) df.cols r)).getD i []).getD j none
      = if df.cols.getD j "" = "source" ∨ df.cols.getD j "" = "target"
        then mapCell m (cellAt df i j) else cellAt df i j
    rw [getD_map_eq (fun r => List.zipWith (harmonizeCell m) df.cols r) [] []
      (by simp) df.rows i]
    exact harmonize_row_getD m df.cols (df.rows.getD i []) j hj
  · intro s h
    simp [mapCell, h]
  · intro s sym h
    simp [mapCell, h]

/-- Witness for C6: the source cell of a concrete one-row table is
rewritten to its mapped official symbol. -/
theorem harmonize_passthrough_witness :
    cellAt (harmonize_ids ⟨["source", "target"],
      [[some (Val.str "a"), some (Val.str "t")]]⟩ [("a", "X")]) 0 0
      = some (Val.str "X") :=
  ((harmonize_passthrough ⟨["source", "target"], [[some (Val.str "a"), some (Val.str "t")]]⟩
      [("a", "X")]).2.2.1 0 0 (by decide)).trans (by decide)

/-- C7: on a matrix with unique row keys, the gene-intersection step of
`filter_expression` keeps exactly the rows whose gene is among the network
genes (the union of all source and target values of the network), in the
original matrix row order. -/
theorem expression_gene_intersection (m : ExprMatrix) (net : List (String × String))
    (h : (m.rows.map Prod.fst).Nodup) :
    (intersectStep m (load_network_genes net)).rows
      = m.rows.filter (fun r => decide (r.1 ∈ load_network_genes net)) := by
  show locRows m (index_intersection m (load_network_genes net))
      = m.rows.filter (fun r => decide (r.1 ∈ load_network_genes net))
  have hd : dedupKeepFirst id (m.rows.map Prod.fst) = m.rows.map Prod.fst := by
    refine dedupAux_eq_self id (m.rows.map Prod.fst) [] ?_ (by simp)
    rw [List.map_id]
    exact h
  unfold locRows index_intersection
  rw [hd]
  exact locRows_filter (fun g => decide (g ∈ load_network_genes net)) m.rows h

/-- Witness for C7: matrix rows A, B, C against network genes {B, C, D}
keep exactly B and C, in matrix order. -/
theorem expression_gene_intersection_witness :
    (intersectStep ⟨[("A", [(1 : ℚ)]), ("B", [2]), ("C", [3])]⟩
        (load_network_genes [("B", "C"), ("D", "B")])).rows
      = [("B", [(2 : ℚ)]), ("C", [3])] :=
  (expression_gene_intersection ⟨[("A", [(1 : ℚ)]), ("B", [2]), ("C", [3])]⟩
      [("B", "C"), ("D", "B")] (by decide)).trans (by decide)
